import Mathlib

/-
  Verification of the MySQL-backed dulwich repository store, the thin-pack
  completion algorithm, the smart-HTTP dispatcher and the connection-retry
  helpers, as a shallow embedding in Lean 4.

  Python byte strings are embedded as lists of naturals; database tables as
  lists of rows; fallible Python code returns values in Except over a small
  enumeration of Python exception classes.
-/

set_option autoImplicit false

namespace Dulwich

/-- Byte sequences: Python byte strings embedded as lists of naturals. -/
abbrev Bytes := List Nat

/-- Python exception classes that the embedded code can raise. -/
inductive PyErr where
  | valueError
  | typeError
  | attributeError
  | assertionError
  | notFound
  deriving DecidableEq, Repr

/-- Lowercase hexadecimal digit character code for a value below 16. -/
def hexDigitCode (n : Nat) : Nat :=
  if n < 10 then 48 + n else 87 + n

/-- Modelled from the spec: dulwich.objects.sha_to_hex is not under src; the
spec fixes object ids as 40-character lowercase hex content hashes, so a
20-byte binary sha expands to its 40-character lowercase hex form. -/
def shaToHex (bs : Bytes) : Bytes :=
  (bs.map (fun b => [hexDigitCode (b / 16), hexDigitCode (b % 16)])).flatten

/-- Embedding of MysqlObjectStore._to_hexsha: a 40-character sha is returned
unchanged, a 20-byte sha is hex-expanded, anything else raises ValueError. -/
def toHexsha (sha : Bytes) : Except PyErr Bytes :=
  if sha.length = 40 then Except.ok sha
  else if sha.length = 20 then Except.ok (shaToHex sha)
  else Except.error PyErr.valueError

/-- One row of the objs table: (oid, type, size, data, repo).  The payload is
kept uncompressed because COMPRESS and UNCOMPRESS are an opaque codec pair
that the GET statement always composes back to the identity. -/
structure ObjRow where
  oid : Bytes
  typeNum : Nat
  size : Nat
  payload : Bytes
  repo : String
  deriving DecidableEq, Repr

/-- Row lookup by the primary key (oid, repo), as the HAS and GET statements
select it. -/
def findObj (store : List ObjRow) (repo : String) (oid : Bytes) : Option ObjRow :=
  store.find? (fun r => r.oid == oid && r.repo == repo)

/-- Embedding of MysqlObjectStore._has_sha: the EXISTS query on (oid, repo). -/
def hasSha (store : List ObjRow) (repo : String) (hex : Bytes) : Bool :=
  (findObj store repo hex).isSome

/-- Embedding of MysqlObjectStore.contains_loose. -/
def containsLoose (store : List ObjRow) (repo : String) (sha : Bytes) :
    Except PyErr Bool :=
  (toHexsha sha).map (hasSha store repo)

/-- Embedding of MysqlObjectStore.get_raw: executes the GET statement and
returns the fetched row as-is; when no row matches, fetchone yields None and
get_raw returns it unchanged. -/
def getRaw (store : List ObjRow) (repo : String) (name : Bytes) :
    Except PyErr (Option (Nat × Bytes)) :=
  match toHexsha name with
  | Except.error e => Except.error e
  | Except.ok hex => Except.ok ((findObj store repo hex).map (fun r => (r.typeNum, r.payload)))

/-- A loose git object as add_object receives it: id (40-char hex), numeric
type tag, and raw payload. -/
structure GitObject where
  id : Bytes
  typeNum : Nat
  raw : Bytes
  deriving DecidableEq, Repr

/-- Embedding of MysqlObjectStore.add_object: the ADD statement is INSERT
IGNORE on the primary key (oid, repo), so a row whose key is already present
leaves the table unchanged, and a fresh key appends a row. -/
def addObject (store : List ObjRow) (repo : String) (o : GitObject) : List ObjRow :=
  if (findObj store repo o.id).isSome then store
  else store ++ [⟨o.id, o.typeNum, o.raw.length, o.raw, repo⟩]

/-- One row of the refs table: (ref, value, repo). -/
structure RefRow where
  ref : String
  value : String
  repo : String
  deriving DecidableEq, Repr

/-- The whole database as the registry operations see it: the objs table and
the refs table. -/
structure DB where
  objs : List ObjRow
  refs : List RefRow
  deriving DecidableEq, Repr

/-- Embedding of MysqlRepo.repo_exists: the EXISTS query against the objs
table only. -/
def repoExists (db : DB) (name : String) : Bool :=
  db.objs.any (fun r => r.repo == name)

/-- Embedding of MysqlRepo.list_repos: SELECT DISTINCT repo FROM objs.  The
distinct projection of the repo column; which duplicate survives is not
observable through membership. -/
def listRepos (db : DB) : List String :=
  (db.objs.map (fun r => r.repo)).dedup

/-- The symbolic-reference indirection marker.  Modelled from the spec:
dulwich.refs.SYMREF is not under src; the spec describes a symbolic ref as an
indirection marker prepended to the target ref name. -/
def SYMREF : String := "ref: "

/-- Fixed hop bound for symbolic-reference resolution (spec design note:
cycle handling must be bounded). -/
def followDepth : Nat := 100

/-- Embedding of MysqlRefsContainer.read_loose_ref: the GET statement on the
refs table, fetchone, value column or None. -/
def readLooseRef (db : List RefRow) (repo name : String) : Option String :=
  (db.find? (fun r => r.ref == name && r.repo == repo)).map (fun r => r.value)

/-- Embedding of MysqlRefsContainer._update_ref body: REPLACE INTO refs on
the primary key (ref, repo). -/
def updateRef (db : List RefRow) (repo name value : String) : List RefRow :=
  (db.filter (fun r => !(r.ref == name && r.repo == repo))) ++ [⟨name, value, repo⟩]

/-- Number of required positional arguments of Python method
MysqlRefsContainer._update_ref besides self: name, value and cursor. -/
def updateRefArity : Nat := 3

/-- Embedding of a Python call to MysqlRefsContainer._update_ref supplying
argCount positional arguments: a call that does not supply all three required
parameters raises TypeError before the body runs. -/
def callUpdateRef (db : List RefRow) (repo name value : String) (argCount : Nat) :
    Except PyErr (List RefRow) :=
  if argCount = updateRefArity then Except.ok (updateRef db repo name value)
  else Except.error PyErr.typeError

/-- Modelled from the spec: dulwich.refs.RefsContainer._follow is not under
src; the spec has it resolve a name through symbolic indirection, with a
bounded hop count for chains, returning the resolved real name together with
the contents stored there. -/
def followRef (db : List RefRow) (repo : String) : Nat → String → Except PyErr (String × Option String)
  | 0, _ => Except.error PyErr.valueError
  | fuel + 1, name =>
    match readLooseRef db repo name with
    | some v =>
      if v.startsWith SYMREF then followRef db repo fuel (v.drop 5)
      else Except.ok (name, some v)
    | none => Except.ok (name, none)

/-- Modelled from the spec: dulwich.refs check_ref_format validation is not
under src; the spec has compareAndSwap validate the resolved name against the
allowed ref-name grammar, erroring on malformed names. -/
def checkRefname (name : String) : Except PyErr Unit :=
  if name = "HEAD" ∨ "refs/".isPrefixOf name then Except.ok ()
  else Except.error PyErr.valueError

/-- The write path of set_if_equals after the optimistic check has passed:
follow the name, validate the resolved name, and write through _update_ref
with all three arguments supplied. -/
def setIfEqualsWrite (db : List RefRow) (repo name newRef : String) :
    Except PyErr (Bool × List RefRow) :=
  match followRef db repo followDepth name with
  | Except.error e => Except.error e
  | Except.ok rn =>
    match checkRefname rn.fst with
    | Except.error e => Except.error e
    | Except.ok _ =>
      match callUpdateRef db repo rn.fst newRef 3 with
      | Except.error e => Except.error e
      | Except.ok db2 => Except.ok (true, db2)

/-- Embedding of MysqlRefsContainer.set_if_equals: when old_ref is not None,
re-read the current value and return False without writing when it differs;
otherwise resolve, validate and write, returning True. -/
def setIfEquals (db : List RefRow) (repo name : String) (oldRef : Option String)
    (newRef : String) : Except PyErr (Bool × List RefRow) :=
  match oldRef with
  | some o =>
    if readLooseRef db repo name = some o then setIfEqualsWrite db repo name newRef
    else Except.ok (false, db)
  | none => setIfEqualsWrite db repo name newRef

/-- Embedding of MysqlRefsContainer.set_symbolic_ref: the source calls
self._update_ref(name, SYMREF + other), supplying only two of the three
required positional arguments of _update_ref. -/
def setSymbolicRef (db : List RefRow) (repo name other : String) :
    Except PyErr (List RefRow) :=
  callUpdateRef db repo name (SYMREF ++ other) 2

/-- The method names defined on class HTTPGitRequest in swift-web.py, in
source order, besides the constructor. -/
def httpGitRequestMethods : List String :=
  ["add_header", "respond", "not_found", "error"]

/-- Modelled from the spec: dulwich.server.DEFAULT_HANDLERS is not under src;
the spec fixes exactly two supported smart-HTTP services. -/
def defaultHandlers : List String := ["git-upload-pack", "git-receive-pack"]

/-- Responses the dispatcher can produce, by status class. -/
inductive WebResponse where
  | okResponse (contentType : String)
  | notFound (msg : String)
  | forbidden (msg : String)
  deriving DecidableEq, Repr

/-- Embedding of get_info_refs: service is the parsed service query
parameter, repoValid is whether backend.open_repository succeeds.  When the
service is unsupported the source evaluates req.forbidden(...), an attribute
lookup on HTTPGitRequest; a missing attribute raises AttributeError. -/
def getInfoRefs (service : Option String) (repoValid : Bool) :
    Except PyErr WebResponse :=
  match service with
  | some s =>
    if defaultHandlers.contains s then
      if repoValid then Except.ok (WebResponse.okResponse ("application/x-" ++ s ++ "-advertisement"))
      else Except.ok (WebResponse.notFound "")
    else
      if httpGitRequestMethods.contains "forbidden" then
        Except.ok (WebResponse.forbidden ("Unsupported service " ++ s))
      else Except.error PyErr.attributeError
  | none => Except.ok (WebResponse.notFound "")

/-- Embedding of handle_service_request: service is the path-derived service
name; the unsupported-service branch performs the same req.forbidden
attribute lookup. -/
def handleServiceRequest (service : String) : Except PyErr WebResponse :=
  if defaultHandlers.contains service then
    Except.ok (WebResponse.okResponse ("application/x-" ++ service ++ "-result"))
  else
    if httpGitRequestMethods.contains "forbidden" then
      Except.ok (WebResponse.forbidden ("Unsupported service " ++ service))
    else Except.error PyErr.attributeError

/-- State of a _LengthLimitedFile: the remaining bytes the underlying
transport can still yield, and the _bytes_avail counter. -/
structure LLFile where
  input : Bytes
  avail : Int
  deriving DecidableEq, Repr

/-- Underlying transport read: for a nonnegative size it yields at most size
bytes, shortened to at most k by the transport (short reads); for a negative
size Python file semantics read until EOF. -/
def inputRead (k : Nat) (data : Bytes) (size : Int) : Bytes × Bytes :=
  if size < 0 then (data, [])
  else (data.take (min size.toNat k), data.drop (min size.toNat k))

/-- Embedding of _LengthLimitedFile.read: return the empty string once
_bytes_avail is exhausted; clamp size -1 or any size above _bytes_avail down
to _bytes_avail; decrement _bytes_avail by the requested size; then read from
the underlying input.  k is the transport short-read cap for this call. -/
def llRead (f : LLFile) (k : Nat) (size : Int) : Bytes × LLFile :=
  if f.avail ≤ 0 then ([], f)
  else
    let sz := if size = -1 ∨ f.avail < size then f.avail else size
    let p := inputRead k f.input sz
    (p.fst, ⟨p.snd, f.avail - sz⟩)

/-- Run a sequence of read calls, each given as (short-read cap, size),
collecting everything returned. -/
def llRun (f : LLFile) : List (Nat × Int) → Bytes × LLFile
  | [] => ([], f)
  | c :: rest =>
    let p := llRead f c.fst c.snd
    let q := llRun p.snd rest
    (p.fst ++ q.fst, q.snd)

/-- Outcome of one call to a wrapped database operation: normal return, an
exception of a class listed in catches, or an exception of any other class. -/
inductive AttemptOutcome (α : Type) where
  | ok (a : α)
  | transientErr (e : Nat)
  | fatalErr (e : Nat)
  deriving DecidableEq, Repr

/-- Result of the wrapped call: a returned value, a raised exception, or the
TypeError from raising None when no attempt ever ran. -/
inductive RetryResult (α : Type) where
  | returned (a : α)
  | raised (e : Nat)
  | raisedNone
  deriving DecidableEq, Repr

/-- The loop body of retry_operation: err starts as None; each iteration
calls the function once; a caught exception is stored in err and the loop
continues; an uncaught exception propagates; after the loop the stored err is
raised.  The second component counts how many calls were made. -/
def retryGo {α : Type} (outcomes : Nat → AttemptOutcome α) (i : Nat) (err : Option Nat) :
    Nat → RetryResult α × Nat
  | 0 =>
    (match err with
     | some e => RetryResult.raised e
     | none => RetryResult.raisedNone, 0)
  | rem + 1 =>
    match outcomes i with
    | AttemptOutcome.ok a => (RetryResult.returned a, 1)
    | AttemptOutcome.transientErr e =>
      let p := retryGo outcomes (i + 1) (some e) rem
      (p.fst, p.snd + 1)
    | AttemptOutcome.fatalErr e => (RetryResult.raised e, 1)

/-- Embedding of retry_operation(retries=3, catches=(DatabaseError,)) applied
to a function whose successive call outcomes are given by outcomes. -/
def retryOperation {α : Type} (retries : Nat) (outcomes : Nat → AttemptOutcome α) :
    RetryResult α × Nat :=
  retryGo outcomes 0 none retries

/-- A BytesIO buffer: its contents and the current position.  A write
overwrites in place from the position and extends the buffer when it runs
past the end. -/
structure PFile where
  data : Bytes
  pos : Nat
  deriving DecidableEq, Repr

/-- BytesIO write semantics at the current position. -/
def fwrite (f : PFile) (bs : Bytes) : PFile :=
  ⟨f.data.take f.pos ++ bs ++ f.data.drop (f.pos + bs.length), f.pos + bs.length⟩

/-- Big-endian 4-byte encoding of a natural number. -/
def be32 (n : Nat) : Bytes :=
  [n / 16777216 % 256, n / 65536 % 256, n / 256 % 256, n % 256]

/-- Modelled from the spec: dulwich.pack.write_pack_header is not under src;
the transfer stream's leading header is a fixed 12-byte field whose last four
bytes carry the object count, rewritten in place. -/
def packHeader (n : Nat) : Bytes :=
  [80, 65, 67, 75, 0, 0, 0, 2] ++ be32 n

/-- The header rewrite performed at position 0. -/
def writePackHeader (f : PFile) (n : Nat) : PFile :=
  fwrite f (packHeader n)

/-- Modelled from the spec: dulwich.pack.compute_file_sha with end_ofs -20 is
not under src; it feeds the whole buffer except the 20 trailing checksum
bytes into a running checksum and leaves the position there.  The running
checksum state is embedded as the byte sequence fed so far; the digest
function itself is an opaque codec parameter. -/
def computeFileSha (f : PFile) : Bytes × PFile :=
  (f.data.take (f.data.length - 20), ⟨f.data, f.data.length - 20⟩)

/-- Modelled from the spec: dulwich.pack.write_pack_object is not under src;
it appends the codec encoding of the object at the current position and
feeds the written bytes into the running checksum. -/
def writePackObject (encode : Nat → Bytes → Bytes) (f : PFile) (sha : Bytes)
    (t : Nat) (d : Bytes) : PFile × Bytes :=
  (fwrite f (encode t d), sha ++ encode t d)

/-- The loop of _complete_thin_pack over indexer.ext_refs(): assert each ref
is a 20-byte sha, resolve it through get_raw (unpacking a None row raises
TypeError), and write the re-encoded object while updating the checksum. -/
def writeExtObjects (encode : Nat → Bytes → Bytes) (store : List ObjRow) (repo : String) :
    List Bytes → PFile → Bytes → Except PyErr (PFile × Bytes)
  | [], f, sha => Except.ok (f, sha)
  | e :: rest, f, sha =>
    if e.length = 20 then
      match getRaw store repo e with
      | Except.error err => Except.error err
      | Except.ok none => Except.error PyErr.typeError
      | Except.ok (some td) =>
        writeExtObjects encode store repo rest
          (fwrite f (encode td.fst td.snd)) (sha ++ encode td.fst td.snd)
    else Except.error PyErr.assertionError

/-- The concatenated encodings of a list of external references when every
one of them is a 20-byte sha resolvable through get_raw. -/
def extEncodings (encode : Nat → Bytes → Bytes) (store : List ObjRow) (repo : String) :
    List Bytes → Option Bytes
  | [] => some []
  | e :: rest =>
    if e.length = 20 then
      match getRaw store repo e with
      | Except.ok (some td) =>
        (extEncodings encode store repo rest).map (fun bs => encode td.fst td.snd ++ bs)
      | _ => none
    else none

/-- Embedding of MysqlObjectStore._complete_thin_pack: seek to 0 and rewrite
the header with the count of contained plus external objects, recompute the
running checksum over everything but the 20 trailing bytes, append each
resolved external object, and append the digest of the running checksum. -/
def completeThinPack (encode : Nat → Bytes → Bytes) (digest : Bytes → Bytes)
    (store : List ObjRow) (repo : String) (f : PFile) (numEntries : Nat)
    (extRefs : List Bytes) : Except PyErr PFile :=
  let f1 := writePackHeader ⟨f.data, 0⟩ (numEntries + extRefs.length)
  let p := computeFileSha f1
  match writeExtObjects encode store repo extRefs p.snd p.fst with
  | Except.error e => Except.error e
  | Except.ok q => Except.ok (fwrite q.fst (digest q.snd))

/-- Modelled from the spec: PackStreamCopier and PackIndexer are not under
src; a transfer is the raw bytes copied into the buffer together with the
verification outcome, either an error raised while streaming or the indexed
pair of contained-object count and external reference list. -/
structure Transfer where
  raw : Bytes
  outcome : Except PyErr (Nat × List Bytes)

/-- The commit closure of add_pack: decode the completed buffer through the
opaque inflater codec and add every decoded object through _add_object. -/
def commitPack (decode : Bytes → List GitObject) (store : List ObjRow)
    (repo : String) (bs : Bytes) : List ObjRow :=
  (decode bs).foldl (fun st o => addObject st repo o) store

/-- Embedding of MysqlObjectStore.add_thin_pack: stream and verify, complete
the thin pack, and only in the no-exception branch run commit; any raised
error runs the no-op abort and re-raises, so the store component of the
result is the input store on every error path. -/
def addThinPack (encode : Nat → Bytes → Bytes) (digest : Bytes → Bytes)
    (decode : Bytes → List GitObject) (store : List ObjRow) (repo : String)
    (tr : Transfer) : Except PyErr Unit × List ObjRow :=
  match tr.outcome with
  | Except.error e => (Except.error e, store)
  | Except.ok nr =>
    match completeThinPack encode digest store repo ⟨tr.raw, tr.raw.length⟩ nr.fst nr.snd with
    | Except.error e => (Except.error e, store)
    | Except.ok f2 => (Except.ok (), commitPack decode store repo f2.data)

theorem findObj_addObject_isSome (store : List ObjRow) (repo : String) (o : GitObject) :
    (findObj (addObject store repo o) repo o.id).isSome = true := by
  unfold addObject
  cases hfind : findObj store repo o.id with
  | some r => simp [hfind]
  | none =>
    have hf : store.find? (fun r => r.oid == o.id && r.repo == repo) = none := hfind
    simp [findObj, hfind, List.find?_append, hf, List.find?, Option.or]

theorem addObject_of_isSome (store : List ObjRow) (repo : String) (o : GitObject)
    (h : (findObj store repo o.id).isSome = true) :
    addObject store repo o = store := by
  simp [addObject, h]

/-- Claim C3, as stated: get_raw on an id absent from the store fails with a
NotFound error.  Counterexample: on the empty store the embedded get_raw
returns the fetched row unchanged, namely Ok None, and raises nothing. -/
theorem c3_get_raw_counterexample :
    getRaw [] "repo" (List.replicate 40 48) = Except.ok none ∧
      getRaw [] "repo" (List.replicate 40 48) ≠ Except.error PyErr.notFound := by
  constructor
  · rfl
  · intro hcon
    exact Except.noConfusion hcon

/-- Claim C3 amended: for every valid 40-character object id absent from the
store under the current repository, get_raw returns None, the empty fetch
result, rather than raising a NotFound error. -/
theorem c3_get_raw_absent (store : List ObjRow) (repo : String) (name : Bytes)
    (h40 : name.length = 40) (habs : findObj store repo name = none) :
    getRaw store repo name = Except.ok none := by
  simp [getRaw, toHexsha, h40, habs]

theorem c3_get_raw_absent_witness :
    getRaw [⟨List.replicate 40 49, 1, 0, [], "repo"⟩] "repo" (List.replicate 40 48)
      = Except.ok none :=
  c3_get_raw_absent _ _ _ (by decide) (by decide)

/-- Claim C4: add_object is an idempotent insert; a duplicate write of the
same id is a no-op on the table, and contains is true after either one or
two writes of the same object. -/
theorem c4_add_object_idempotent (store : List ObjRow) (repo : String) (o : GitObject)
    (h40 : o.id.length = 40) :
    addObject (addObject store repo o) repo o = addObject store repo o ∧
      containsLoose (addObject store repo o) repo o.id = Except.ok true ∧
      containsLoose (addObject (addObject store repo o) repo o) repo o.id = Except.ok true := by
  have hsome := findObj_addObject_isSome store repo o
  have hid : addObject (addObject store repo o) repo o = addObject store repo o :=
    addObject_of_isSome _ _ _ hsome
  refine ⟨hid, ?_, ?_⟩
  · simp [containsLoose, toHexsha, h40, hasSha, hsome, Except.map]
  · rw [hid]
    simp [containsLoose, toHexsha, h40, hasSha, hsome, Except.map]

theorem c4_add_object_idempotent_witness :
    addObject (addObject [] "r" ⟨List.replicate 40 48, 3, [5, 6]⟩) "r"
        ⟨List.replicate 40 48, 3, [5, 6]⟩
      = addObject [] "r" ⟨List.replicate 40 48, 3, [5, 6]⟩ ∧
    containsLoose (addObject [] "r" ⟨List.replicate 40 48, 3, [5, 6]⟩) "r"
        (List.replicate 40 48) = Except.ok true :=
  ⟨(c4_add_object_idempotent [] "r" ⟨List.replicate 40 48, 3, [5, 6]⟩ (by decide)).1,
   (c4_add_object_idempotent [] "r" ⟨List.replicate 40 48, 3, [5, 6]⟩ (by decide)).2.1⟩

/-- Claim C5: when expectedOld is supplied and the stored current value
differs from it, set_if_equals returns False with the refs table unchanged,
and raises no error. -/
theorem c5_set_if_equals_mismatch (db : List RefRow) (repo name oldv newv : String)
    (h : readLooseRef db repo name ≠ some oldv) :
    setIfEquals db repo name (some oldv) newv = Except.ok (false, db) := by
  simp [setIfEquals, h]

theorem c5_set_if_equals_mismatch_witness :
    setIfEquals [⟨"refs/heads/x", "aa", "r"⟩] "r" "refs/heads/x" (some "bb") "cc"
      = Except.ok (false, [⟨"refs/heads/x", "aa", "r"⟩]) :=
  c5_set_if_equals_mismatch _ _ _ _ _ (by decide)

/-- Claim C6, on the code: set_symbolic_ref calls _update_ref without its
required cursor argument, so every call raises TypeError and never writes the
indirection marker; the claimed setSymbolic-then-CAS-then-read scenario can
never begin. -/
theorem c6_set_symbolic_ref_raises (db : List RefRow) (repo name other : String) :
    setSymbolicRef db repo name other = Except.error PyErr.typeError := rfl

/-- Claim C7, on the code: for an unsupported service name both dispatch
paths evaluate req.forbidden, an attribute HTTPGitRequest does not define, so
the request raises AttributeError instead of responding 403 forbidden. -/
theorem c7_unsupported_service_raises (s : String) (repoValid : Bool)
    (h : defaultHandlers.contains s = false) :
    getInfoRefs (some s) repoValid = Except.error PyErr.attributeError ∧
      handleServiceRequest s = Except.error PyErr.attributeError := by
  have hmem : s ∉ defaultHandlers := by simpa using h
  have hforb : "forbidden" ∉ httpGitRequestMethods := by decide
  constructor
  · simp [getInfoRefs, hmem, hforb]
  · simp [handleServiceRequest, hmem, hforb]

theorem c7_unsupported_service_raises_witness :
    getInfoRefs (some "git-annex") true = Except.error PyErr.attributeError ∧
      handleServiceRequest "git-annex" = Except.error PyErr.attributeError :=
  c7_unsupported_service_raises "git-annex" true (by decide)

/-- Claim C9: with the default bound of 3, a function whose first three call
outcomes are all classified transient errors is called exactly three times,
and the error of the last attempt is the one raised. -/
theorem c9_retry_bound {α : Type} (outcomes : Nat → AttemptOutcome α) (e : Nat → Nat)
    (h : ∀ i, i < 3 → outcomes i = AttemptOutcome.transientErr (e i)) :
    retryOperation 3 outcomes = (RetryResult.raised (e 2), 3) := by
  have h0 := h 0 (by omega)
  have h1 := h 1 (by omega)
  have h2 := h 2 (by omega)
  simp [retryOperation, retryGo, h0, h1, h2]

theorem c9_retry_bound_witness :
    retryOperation 3 (fun i => (AttemptOutcome.transientErr i : AttemptOutcome Nat))
      = (RetryResult.raised 2, 3) :=
  c9_retry_bound (fun i => AttemptOutcome.transientErr i) (fun i => i) (fun _ _ => rfl)

/-- Claim C10: repository existence and enumeration are computed from the
objs table alone: repo_exists is the existence of an object row with that
repo name, list_repos is exactly the distinct repo names of the objs table,
neither consults the refs table, and a namespace holding only refs reports
non-existent and is omitted from the listing. -/
theorem c10_registry_from_objs (db : DB) (name : String) :
    (repoExists db name = true ↔ ∃ r ∈ db.objs, r.repo = name) ∧
      (∀ n, n ∈ listRepos db ↔ ∃ r ∈ db.objs, r.repo = n) ∧
      (listRepos db).Nodup ∧
      (∀ rrows : List RefRow,
        repoExists ⟨db.objs, rrows⟩ name = repoExists db name ∧
          listRepos ⟨db.objs, rrows⟩ = listRepos db) ∧
      ((∀ r ∈ db.objs, r.repo ≠ name) →
        repoExists db name = false ∧ name ∉ listRepos db) := by
  refine ⟨?_, ?_, ?_, ?_, ?_⟩
  · simp [repoExists, List.any_eq_true]
  · intro n
    simp [listRepos, List.mem_dedup]
  · exact List.nodup_dedup _
  · intro rrows
    exact ⟨rfl, rfl⟩
  · intro hno
    constructor
    · simp only [repoExists, List.any_eq_false]
      intro r hr
      simpa using hno r hr
    · simp only [listRepos, List.mem_dedup, List.mem_map]
      rintro ⟨r, hr, hrepo⟩
      exact hno r hr hrepo

theorem c10_registry_from_objs_witness :
    repoExists ⟨[], [⟨"refs/heads/m", "aa", "ghost"⟩]⟩ "ghost" = false ∧
      "ghost" ∉ listRepos ⟨[], [⟨"refs/heads/m", "aa", "ghost"⟩]⟩ :=
  (c10_registry_from_objs ⟨[], [⟨"refs/heads/m", "aa", "ghost"⟩]⟩ "ghost").2.2.2.2
    (by intro r hr; simp at hr)

theorem llRead_step (f : LLFile) (k : Nat) (s : Int) (hs : s = -1 ∨ 0 ≤ s)
    (hpos : 0 ≤ f.avail) :
    0 ≤ (llRead f k s).snd.avail ∧
      ((llRead f k s).fst.length : Int) + (llRead f k s).snd.avail ≤ f.avail := by
  by_cases hle : f.avail ≤ 0
  · simp [llRead, hle, hpos]
  · have hnn : ¬ f.avail < 0 := by omega
    by_cases hc : s = -1 ∨ f.avail < s
    · have h1 : llRead f k s =
          ((inputRead k f.input f.avail).fst,
           ⟨(inputRead k f.input f.avail).snd, f.avail - f.avail⟩) := by
        simp [llRead, hle, hc]
      have hlen : (inputRead k f.input f.avail).fst.length ≤ f.avail.toNat := by
        unfold inputRead
        rw [if_neg hnn]
        simp only [List.length_take]
        omega
      rw [h1]
      constructor
      · simp
      · simp only []
        omega
    · have hs0 : 0 ≤ s := by
        rcases hs with h | h
        · exact absurd (Or.inl h) hc
        · exact h
      have hsle : s ≤ f.avail := by
        rcases (not_or.mp hc) with ⟨_, h2⟩
        omega
      have hsn : ¬ s < 0 := by omega
      have h1 : llRead f k s =
          ((inputRead k f.input s).fst, ⟨(inputRead k f.input s).snd, f.avail - s⟩) := by
        simp [llRead, hle, hc]
      have hlen : (inputRead k f.input s).fst.length ≤ s.toNat := by
        unfold inputRead
        rw [if_neg hsn]
        simp only [List.length_take]
        omega
      rw [h1]
      constructor
      · simp only []
        omega
      · simp only []
        omega

theorem llRun_invariant (trace : List (Nat × Int)) (f : LLFile)
    (h : ∀ c ∈ trace, c.snd = -1 ∨ 0 ≤ c.snd) (hpos : 0 ≤ f.avail) :
    0 ≤ (llRun f trace).snd.avail ∧
      ((llRun f trace).fst.length : Int) + (llRun f trace).snd.avail ≤ f.avail := by
  induction trace generalizing f with
  | nil => simpa [llRun] using hpos
  | cons c rest ih =>
    have hc := h c (by simp)
    have hrest : ∀ x ∈ rest, x.snd = -1 ∨ 0 ≤ x.snd := fun x hx => h x (by simp [hx])
    have hstep := llRead_step f c.fst c.snd hc hpos
    have hih := ih (llRead f c.fst c.snd).snd hrest hstep.1
    have hrun : llRun f (c :: rest) =
        ((llRead f c.fst c.snd).fst ++ (llRun (llRead f c.fst c.snd).snd rest).fst,
         (llRun (llRead f c.fst c.snd).snd rest).snd) := rfl
    rw [hrun]
    have h2 := hstep.2
    have h3 := hih.2
    constructor
    · exact hih.1
    · simp only [List.length_append]
      push_cast
      push_cast at h2 h3
      omega

/-- Claim C8, as stated: the cumulative bytes returned never exceed the
declared content length L for every sequence of read calls.  Counterexample:
a read call with size -2 escapes the clamp (the source only special-cases
size == -1 and size greater than the remaining budget), increases
_bytes_avail, and passes -2 to the underlying read, which reads to EOF: with
L = 1 and three bytes available on the transport, one read(-2) call returns
three bytes. -/
theorem c8_limiter_counterexample :
    ¬ (llRun ⟨[7, 7, 7], 1⟩ [(5, -2)]).fst.length ≤ 1 := by decide

/-- Claim C8 amended: for every request with declared content length L, and
every sequence of read calls whose sizes are each -1 or nonnegative, the
cumulative number of bytes returned never exceeds L, even when the transport
holds more data or returns short reads; and once L bytes have been consumed
every further read returns the empty string. -/
theorem c8_length_limit (L : Nat) (data : Bytes) (trace : List (Nat × Int))
    (h : ∀ c ∈ trace, c.snd = -1 ∨ 0 ≤ c.snd) :
    (llRun ⟨data, (L : Int)⟩ trace).fst.length ≤ L ∧
      ((llRun ⟨data, (L : Int)⟩ trace).fst.length = L →
        ∀ k s, (llRead (llRun ⟨data, (L : Int)⟩ trace).snd k s).fst = []) := by
  have hpos : (0 : Int) ≤ (L : Int) := by positivity
  have hinv := llRun_invariant trace ⟨data, (L : Int)⟩ h hpos
  have h1 := hinv.1
  have h2 : ((llRun ⟨data, (L : Int)⟩ trace).fst.length : Int) +
      (llRun ⟨data, (L : Int)⟩ trace).snd.avail ≤ (L : Int) := hinv.2
  constructor
  · omega
  · intro hLen k s
    have havail : (llRun ⟨data, (L : Int)⟩ trace).snd.avail ≤ 0 := by
      rw [hLen] at h2
      omega
    simp [llRead, havail]

theorem c8_length_limit_witness :
    (llRun ⟨[1, 2, 3], ((2 : Nat) : Int)⟩ [(5, 1), (5, -1)]).fst.length ≤ 2 ∧
      (llRead (llRun ⟨[1, 2, 3], ((2 : Nat) : Int)⟩ [(5, 1), (5, -1)]).snd 9 5).fst = [] := by
  have h := c8_length_limit 2 [1, 2, 3] [(5, 1), (5, -1)] (by decide)
  exact ⟨h.1, h.2 (by decide) 9 5⟩

theorem take_append_exact (A B C : Bytes) :
    (A ++ (B ++ C)).take (A.length + B.length) = A ++ B := by
  rw [List.take_append_eq_append_take]
  have h1 : A.take (A.length + B.length) = A := List.take_of_length_le (by omega)
  have h2 : A.length + B.length - A.length = B.length := by omega
  rw [h1, h2, List.take_left]

theorem fwrite_pos (f : PFile) (bs : Bytes) : (fwrite f bs).pos = f.pos + bs.length := rfl

theorem fwrite_length (f : PFile) (bs : Bytes) (h : f.pos ≤ f.data.length) :
    (fwrite f bs).data.length = max f.data.length (f.pos + bs.length) := by
  simp only [fwrite, List.length_append, List.length_take, List.length_drop]
  omega

theorem fwrite_take (f : PFile) (bs : Bytes) (h : f.pos ≤ f.data.length) :
    (fwrite f bs).data.take (f.pos + bs.length) = f.data.take f.pos ++ bs := by
  have hA : (f.data.take f.pos).length = f.pos := by
    simp only [List.length_take]
    omega
  show (f.data.take f.pos ++ bs ++ f.data.drop (f.pos + bs.length)).take (f.pos + bs.length)
      = f.data.take f.pos ++ bs
  rw [List.append_assoc, List.take_append_eq_append_take, hA]
  have h1 : (f.data.take f.pos).take (f.pos + bs.length) = f.data.take f.pos :=
    List.take_of_length_le (by omega)
  have h2 : f.pos + bs.length - f.pos = bs.length := by omega
  rw [h1, h2, List.take_left]

theorem writeExtObjects_ok (encode : Nat → Bytes → Bytes) (store : List ObjRow)
    (repo : String) :
    ∀ (refs : List Bytes) (f : PFile) (sha ext : Bytes),
      extEncodings encode store repo refs = some ext →
      f.pos ≤ f.data.length →
      ∃ g : PFile,
        writeExtObjects encode store repo refs f sha = Except.ok (g, sha ++ ext) ∧
          g.pos = f.pos + ext.length ∧
          g.data.take g.pos = f.data.take f.pos ++ ext ∧
          g.data.length = max f.data.length g.pos := by
  intro refs
  induction refs with
  | nil =>
    intro f sha ext hext hpos
    simp only [extEncodings, Option.some.injEq] at hext
    subst hext
    refine ⟨f, by simp [writeExtObjects], by simp, by simp, ?_⟩
    omega
  | cons e rest ih =>
    intro f sha ext hext hpos
    by_cases h20 : e.length = 20
    · cases hraw : getRaw store repo e with
      | error err => simp [extEncodings, h20, hraw] at hext
      | ok oval =>
        cases oval with
        | none => simp [extEncodings, h20, hraw] at hext
        | some td =>
          simp only [extEncodings, h20, if_true, hraw] at hext
          obtain ⟨ext0, hrest, hcat⟩ := Option.map_eq_some'.mp hext
          subst hcat
          have hpos1 : (fwrite f (encode td.fst td.snd)).pos
              ≤ (fwrite f (encode td.fst td.snd)).data.length := by
            rw [fwrite_pos, fwrite_length f _ hpos]
            omega
          obtain ⟨g, hw, hgpos, hgtake, hglen⟩ :=
            ih (fwrite f (encode td.fst td.snd)) (sha ++ encode td.fst td.snd) ext0 hrest hpos1
          refine ⟨g, ?_, ?_, ?_, ?_⟩
          · simp only [writeExtObjects, h20, if_true, hraw]
            rw [hw, List.append_assoc]
          · rw [hgpos, fwrite_pos, List.length_append]
            omega
          · rw [hgtake, fwrite_pos, fwrite_take f _ hpos, List.append_assoc]
          · rw [hglen, fwrite_length f _ hpos, fwrite_pos] at *
            omega
    · simp [extEncodings, h20] at hext

theorem writeExtObjects_err (encode : Nat → Bytes → Bytes) (store : List ObjRow)
    (repo : String) :
    ∀ (refs : List Bytes) (f : PFile) (sha : Bytes) (r : Bytes),
      r ∈ refs → getRaw store repo r = Except.ok none →
      ∃ e, writeExtObjects encode store repo refs f sha = Except.error e := by
  intro refs
  induction refs with
  | nil =>
    intro f sha r hr
    simp at hr
  | cons x rest ih =>
    intro f sha r hr hraw
    by_cases h20 : x.length = 20
    · cases hx : getRaw store repo x with
      | error err => exact ⟨err, by simp [writeExtObjects, h20, hx]⟩
      | ok oval =>
        cases oval with
        | none => exact ⟨PyErr.typeError, by simp [writeExtObjects, h20, hx]⟩
        | some td =>
          have hrrest : r ∈ rest := by
            rcases List.mem_cons.mp hr with heq | hm
            · subst heq
              rw [hx] at hraw
              simp at hraw
            · exact hm
          obtain ⟨e, he⟩ := ih (fwrite f (encode td.fst td.snd))
            (sha ++ encode td.fst td.snd) r hrrest hraw
          exact ⟨e, by simp [writeExtObjects, h20, hx, he]⟩
    · exact ⟨PyErr.assertionError, by simp [writeExtObjects, h20]⟩

/-- Claim C1: completing a thin stream with numEntries contained objects and
extRefs external references, all resolvable from the store, rewrites the
12-byte leading header to declare numEntries + extRefs.length objects,
recomputes the checksum over the rewritten stream body without the original
20 trailing checksum bytes (feeding every appended external object into the
running checksum as well), and appends the newly computed digest as the
trailing bytes of the stream. -/
theorem c1_complete_thin_pack (encode : Nat → Bytes → Bytes) (digest : Bytes → Bytes)
    (store : List ObjRow) (repo : String) (n p : Nat) (body ck ext : Bytes)
    (extRefs : List Bytes) (hck : ck.length = 20)
    (hdig : ∀ bs, (digest bs).length = 20)
    (hext : extEncodings encode store repo extRefs = some ext) :
    completeThinPack encode digest store repo ⟨packHeader n ++ body ++ ck, p⟩ n extRefs
      = Except.ok ⟨packHeader (n + extRefs.length) ++ body ++ ext ++
            digest (packHeader (n + extRefs.length) ++ body ++ ext),
          12 + body.length + ext.length + 20⟩ ∧
      (packHeader (n + extRefs.length) ++ body ++ ext ++
          digest (packHeader (n + extRefs.length) ++ body ++ ext)).take 12
        = packHeader (n + extRefs.length) := by
  have hlenph : (packHeader (n + extRefs.length)).length = 12 := rfl
  have hfile1 : writePackHeader ⟨packHeader n ++ body ++ ck, 0⟩ (n + extRefs.length)
      = ⟨packHeader (n + extRefs.length) ++ (body ++ ck), 12⟩ := by
    show (⟨(packHeader n ++ body ++ ck).take 0 ++ packHeader (n + extRefs.length) ++
            (packHeader n ++ body ++ ck).drop (0 + (packHeader (n + extRefs.length)).length),
          0 + (packHeader (n + extRefs.length)).length⟩ : PFile)
        = ⟨packHeader (n + extRefs.length) ++ (body ++ ck), 12⟩
    rw [List.take_zero, List.nil_append, Nat.zero_add, hlenph, List.append_assoc]
    rw [show (12 : Nat) = (packHeader n).length from rfl, List.drop_left]
  have hlen1 : (packHeader (n + extRefs.length) ++ (body ++ ck)).length
      = 12 + body.length + 20 := by
    simp only [List.length_append, hlenph, hck]
    omega
  have hsha0 : (packHeader (n + extRefs.length) ++ (body ++ ck)).take
        ((packHeader (n + extRefs.length) ++ (body ++ ck)).length - 20)
      = packHeader (n + extRefs.length) ++ body := by
    rw [hlen1]
    rw [show 12 + body.length + 20 - 20
        = (packHeader (n + extRefs.length)).length + body.length by rw [hlenph]; omega]
    exact take_append_exact _ _ _
  have hposeq : (packHeader (n + extRefs.length) ++ (body ++ ck)).length - 20
      = 12 + body.length := by omega
  have hcfs : computeFileSha ⟨packHeader (n + extRefs.length) ++ (body ++ ck), 12⟩
      = (packHeader (n + extRefs.length) ++ body,
         ⟨packHeader (n + extRefs.length) ++ (body ++ ck), 12 + body.length⟩) := by
    unfold computeFileSha
    rw [hsha0, hposeq]
  have hposS : (⟨packHeader (n + extRefs.length) ++ (body ++ ck), 12 + body.length⟩ : PFile).pos
      ≤ (⟨packHeader (n + extRefs.length) ++ (body ++ ck), 12 + body.length⟩ : PFile).data.length := by
    show 12 + body.length ≤ (packHeader (n + extRefs.length) ++ (body ++ ck)).length
    rw [hlen1]
    omega
  obtain ⟨g, hw, hgpos, hgtake, hglen⟩ :=
    writeExtObjects_ok encode store repo extRefs
      ⟨packHeader (n + extRefs.length) ++ (body ++ ck), 12 + body.length⟩
      (packHeader (n + extRefs.length) ++ body) ext hext hposS
  have hgpos2 : g.pos = 12 + body.length + ext.length := hgpos
  have hfd : (⟨packHeader (n + extRefs.length) ++ (body ++ ck),
        12 + body.length⟩ : PFile).data.length
      = 12 + body.length + 20 := hlen1
  have hl2 : (12 : Nat) + body.length
      = (packHeader (n + extRefs.length) ++ (body ++ ck)).length - 20 := by omega
  have hgtake2 : g.data.take g.pos = (packHeader (n + extRefs.length) ++ body) ++ ext := by
    rw [hgtake]
    congr 1
    show (packHeader (n + extRefs.length) ++ (body ++ ck)).take (12 + body.length)
        = packHeader (n + extRefs.length) ++ body
    rw [hl2]
    exact hsha0
  have hfin : completeThinPack encode digest store repo ⟨packHeader n ++ body ++ ck, p⟩ n extRefs
      = Except.ok (fwrite g (digest ((packHeader (n + extRefs.length) ++ body) ++ ext))) := by
    show (match writeExtObjects encode store repo extRefs
            (computeFileSha (writePackHeader ⟨packHeader n ++ body ++ ck, 0⟩
              (n + extRefs.length))).snd
            (computeFileSha (writePackHeader ⟨packHeader n ++ body ++ ck, 0⟩
              (n + extRefs.length))).fst with
          | Except.error e => Except.error e
          | Except.ok q => Except.ok (fwrite q.fst (digest q.snd)))
        = Except.ok (fwrite g (digest ((packHeader (n + extRefs.length) ++ body) ++ ext)))
    rw [hfile1, hcfs]
    dsimp only
    rw [hw]
  have hdg : (digest ((packHeader (n + extRefs.length) ++ body) ++ ext)).length = 20 :=
    hdig _
  have hdropnil : g.data.drop (g.pos + 20) = [] := by
    apply List.drop_eq_nil_of_le
    rw [hglen]
    have h1 := hfd
    have h2 := hgpos2
    omega
  have hgdata : fwrite g (digest ((packHeader (n + extRefs.length) ++ body) ++ ext))
      = ⟨packHeader (n + extRefs.length) ++ body ++ ext ++
           digest (packHeader (n + extRefs.length) ++ body ++ ext),
         12 + body.length + ext.length + 20⟩ := by
    show (⟨g.data.take g.pos ++ digest ((packHeader (n + extRefs.length) ++ body) ++ ext) ++
            g.data.drop (g.pos +
              (digest ((packHeader (n + extRefs.length) ++ body) ++ ext)).length),
          g.pos + (digest ((packHeader (n + extRefs.length) ++ body) ++ ext)).length⟩ : PFile)
        = ⟨packHeader (n + extRefs.length) ++ body ++ ext ++
             digest (packHeader (n + extRefs.length) ++ body ++ ext),
           12 + body.length + ext.length + 20⟩
    rw [hdg, hdropnil, hgtake2, List.append_nil, hgpos2]
  have htake12 : (packHeader (n + extRefs.length) ++ body ++ ext ++
        digest (packHeader (n + extRefs.length) ++ body ++ ext)).take 12
      = packHeader (n + extRefs.length) := by
    rw [List.append_assoc, List.append_assoc]
    rw [show (12 : Nat) = (packHeader (n + extRefs.length)).length from rfl, List.take_left]
  exact ⟨by rw [hfin, hgdata], htake12⟩

theorem c1_complete_thin_pack_witness :
    completeThinPack (fun t d => t :: d) (fun _ => List.replicate 20 9)
        [⟨List.replicate 40 48, 1, 1, [5], "r"⟩] "r"
        ⟨packHeader 1 ++ [] ++ List.replicate 20 0, 0⟩ 1 [List.replicate 20 0]
      = Except.ok ⟨packHeader 2 ++ [] ++ [1, 5] ++ List.replicate 20 9, 34⟩ :=
  (c1_complete_thin_pack (fun t d => t :: d) (fun _ => List.replicate 20 9)
      [⟨List.replicate 40 48, 1, 1, [5], "r"⟩] "r" 1 0 [] (List.replicate 20 0) [1, 5]
      [List.replicate 20 0] (by decide) (fun _ => rfl) (by decide)).1

/-- Claim C2: a thin transfer whose processing raises an error commits no
object: on every error path add_thin_pack leaves the store unchanged and
re-raises, and in particular an external reference that resolves to no row
makes completion raise, with the store unchanged afterwards. -/
theorem c2_add_thin_pack_atomic (encode : Nat → Bytes → Bytes) (digest : Bytes → Bytes)
    (decode : Bytes → List GitObject) (store : List ObjRow) (repo : String)
    (tr : Transfer) :
    ((addThinPack encode digest decode store repo tr).fst ≠ Except.ok () →
      (addThinPack encode digest decode store repo tr).snd = store) ∧
      (∀ (nr : Nat × List Bytes) (r : Bytes), tr.outcome = Except.ok nr → r ∈ nr.snd →
        getRaw store repo r = Except.ok none →
        (addThinPack encode digest decode store repo tr).fst ≠ Except.ok () ∧
          (addThinPack encode digest decode store repo tr).snd = store) := by
  obtain ⟨raw, outc⟩ := tr
  constructor
  · intro hne
    cases outc with
    | error e => rfl
    | ok nr =>
      cases hc : completeThinPack encode digest store repo ⟨raw, raw.length⟩ nr.fst nr.snd with
      | error e => simp [addThinPack, hc]
      | ok f2 =>
        exact absurd (by simp [addThinPack, hc]) hne
  · intro nr r hout hr hraw
    cases outc with
    | error e => simp at hout
    | ok nr0 =>
      have heq : nr0 = nr := by simpa using hout
      subst heq
      obtain ⟨e, he⟩ := writeExtObjects_err encode store repo nr0.snd
        (computeFileSha (writePackHeader ⟨raw, 0⟩ (nr0.fst + nr0.snd.length))).snd
        (computeFileSha (writePackHeader ⟨raw, 0⟩ (nr0.fst + nr0.snd.length))).fst
        r hr hraw
      have hc : completeThinPack encode digest store repo ⟨raw, raw.length⟩ nr0.fst nr0.snd
          = Except.error e := by
        show (match writeExtObjects encode store repo nr0.snd
                (computeFileSha (writePackHeader ⟨raw, 0⟩ (nr0.fst + nr0.snd.length))).snd
                (computeFileSha (writePackHeader ⟨raw, 0⟩ (nr0.fst + nr0.snd.length))).fst with
              | Except.error err => Except.error err
              | Except.ok q => Except.ok (fwrite q.fst (digest q.snd)))
            = Except.error e
        rw [he]
      constructor
      · simp [addThinPack, hc]
      · simp [addThinPack, hc]

theorem c2_add_thin_pack_atomic_witness :
    (addThinPack (fun t d => t :: d) (fun _ => List.replicate 20 9) (fun _ => [])
        [] "r" ⟨[], Except.ok (1, [List.replicate 20 0])⟩).fst ≠ Except.ok () ∧
      (addThinPack (fun t d => t :: d) (fun _ => List.replicate 20 9) (fun _ => [])
          [] "r" ⟨[], Except.ok (1, [List.replicate 20 0])⟩).snd = [] :=
  (c2_add_thin_pack_atomic (fun t d => t :: d) (fun _ => List.replicate 20 9)
      (fun _ => []) [] "r" ⟨[], Except.ok (1, [List.replicate 20 0])⟩).2
    (1, [List.replicate 20 0]) (List.replicate 20 0) rfl (by decide) rfl

end Dulwich
